import Mathlib

/-!
Verification of the grow-only set CRDT (src/set/gset.rs).

The Rust code stores elements in a HashSet; with the element type abstracted
to any type with decidable equality, a HashSet is embedded as a Finset.
Fields and methods keep the source names: GSet, GSetOp, new, insert, len,
contains, is_empty, is_subset, is_disjoint, merge, apply, eq, and the
PartialOrd comparison together with the derived le, lt, gt.
-/

/-- GSetOp in gset.rs: an insert operation over GSet CRDTs, carrying
exactly one element. -/
structure GSetOp (α : Type) where
  element : α
deriving DecidableEq

/-- GSet in gset.rs: a grow-only set; the HashSet field is embedded as a
Finset. -/
structure GSet (α : Type) where
  elements : Finset α
deriving DecidableEq

variable {α : Type} [DecidableEq α]

/-- GSet::new — create a new, empty grow-only set. -/
def GSet.new : GSet α := { elements := ∅ }

/-- GSet::insert — inserts the element into the underlying set; returns
the operation record exactly when the element was not already present
(HashSet::insert returned true). -/
def GSet.insert (s : GSet α) (e : α) : GSet α × Option (GSetOp α) :=
  if e ∈ s.elements then (s, none)
  else ({ elements := Insert.insert e s.elements }, some { element := e })

/-- GSet::len — the number of elements in the set. -/
def GSet.len (s : GSet α) : Nat := s.elements.card

/-- GSet::contains. -/
def GSet.contains (s : GSet α) (e : α) : Prop := e ∈ s.elements

/-- GSet::is_empty. -/
def GSet.is_empty (s : GSet α) : Prop := s.elements = ∅

/-- GSet::is_subset. -/
def GSet.is_subset (s other : GSet α) : Prop := s.elements ⊆ other.elements

/-- GSet::is_disjoint. -/
def GSet.is_disjoint (s other : GSet α) : Prop :=
  s.elements ∩ other.elements = ∅

/-- Crdt::merge for GSet — extend self with all elements of other, i.e.
set union in place. -/
def GSet.merge (s other : GSet α) : GSet α :=
  { elements := s.elements ∪ other.elements }

/-- Crdt::apply for GSet — insert the operation's element, discarding the
optional-operation return value. -/
def GSet.apply (s : GSet α) (op : GSetOp α) : GSet α :=
  (s.insert op.element).1

/-- PartialEq::eq for GSet — equality of the underlying element sets. -/
def GSet.eq (a b : GSet α) : Prop := a.elements = b.elements

/-- PartialOrd::partial_cmp for GSet: Equal when the element sets are
equal, else Less when self is a subset, else Greater when self is a
superset, else no defined order. -/
def GSet.partial_cmp (a b : GSet α) : Option Ordering :=
  if a.elements = b.elements then some Ordering.eq
  else if a.elements ⊆ b.elements then some Ordering.lt
  else if b.elements ⊆ a.elements then some Ordering.gt
  else none

/-- Rust's PartialOrd::le, derived from partial_cmp (Less or Equal). -/
def GSet.le (a b : GSet α) : Bool :=
  match GSet.partial_cmp a b with
  | some Ordering.lt => true
  | some Ordering.eq => true
  | _ => false

/-- Rust's PartialOrd::lt, derived from partial_cmp (Less). -/
def GSet.lt (a b : GSet α) : Bool :=
  match GSet.partial_cmp a b with
  | some Ordering.lt => true
  | _ => false

/-- Rust's PartialOrd::gt, derived from partial_cmp (Greater). -/
def GSet.gt (a b : GSet α) : Bool :=
  match GSet.partial_cmp a b with
  | some Ordering.gt => true
  | _ => false

/-- A replica that starts from s and receives a list of operations via
apply. -/
def GSet.applyList (s : GSet α) (ops : List (GSetOp α)) : GSet α :=
  ops.foldl GSet.apply s

/-- The final state one operation would have produced alone on an empty
replica. -/
def GSetOp.solo (op : GSetOp α) : GSet α :=
  GSet.apply GSet.new op

/-- A replica that starts from s and merges a list of full snapshots. -/
def GSet.mergeList (s : GSet α) (others : List (GSet α)) : GSet α :=
  others.foldl GSet.merge s

/-- Insert each element of a list in order, as a local caller would. -/
def GSet.insertAll (s : GSet α) (l : List α) : GSet α :=
  l.foldl (fun t e => (t.insert e).1) s

instance (s : GSet α) (e : α) : Decidable (GSet.contains s e) :=
  decidable_of_iff (e ∈ s.elements) Iff.rfl

instance (s : GSet α) : Decidable (GSet.is_empty s) :=
  decidable_of_iff (s.elements = ∅) Iff.rfl

instance (s other : GSet α) : Decidable (GSet.is_subset s other) :=
  decidable_of_iff (s.elements ⊆ other.elements) Iff.rfl

instance (s other : GSet α) : Decidable (GSet.is_disjoint s other) :=
  decidable_of_iff (s.elements ∩ other.elements = ∅) Iff.rfl

instance (a b : GSet α) : Decidable (GSet.eq a b) :=
  decidable_of_iff (a.elements = b.elements) Iff.rfl

/-- Whatever branch insert takes, the resulting element set is the
insertion of the element. -/
theorem GSet.insert_fst_elements (s : GSet α) (e : α) :
    (GSet.insert s e).1.elements = Insert.insert e s.elements := by
  by_cases h : e ∈ s.elements
  · simp [GSet.insert, h, Finset.insert_eq_self.mpr h]
  · simp [GSet.insert, h]

/-- The element set after apply is the insertion of the op's element. -/
theorem GSet.apply_elements (s : GSet α) (op : GSetOp α) :
    (GSet.apply s op).elements = Insert.insert op.element s.elements := by
  simp [GSet.apply, GSet.insert_fst_elements]

/-- Running applyList accumulates exactly the operations' elements. -/
theorem GSet.applyList_elements (ops : List (GSetOp α)) (s : GSet α) :
    (GSet.applyList s ops).elements =
      s.elements ∪ (ops.map GSetOp.element).toFinset := by
  induction ops generalizing s with
  | nil => simp [GSet.applyList]
  | cons op ops ih =>
      have h : GSet.applyList s (op :: ops)
             = GSet.applyList (GSet.apply s op) ops := rfl
      rw [h, ih, GSet.apply_elements]
      simp [Finset.insert_union, Finset.union_insert]

/-- Each operation alone on an empty replica produces the singleton of
its element. -/
theorem GSetOp.solo_elements (op : GSetOp α) :
    (GSetOp.solo op).elements = {op.element} := by
  simp [GSetOp.solo, GSet.apply_elements, GSet.new]

/-- Merging the solo snapshots accumulates exactly the operations'
elements. -/
theorem GSet.mergeList_solo_elements (ops : List (GSetOp α)) (s : GSet α) :
    (GSet.mergeList s (ops.map GSetOp.solo)).elements =
      s.elements ∪ (ops.map GSetOp.element).toFinset := by
  induction ops generalizing s with
  | nil => simp [GSet.mergeList]
  | cons op ops ih =>
      have h : GSet.mergeList s ((op :: ops).map GSetOp.solo)
             = GSet.mergeList (GSet.merge s (GSetOp.solo op))
                 (ops.map GSetOp.solo) := rfl
      rw [h, ih]
      simp only [GSet.merge, GSetOp.solo_elements, List.map_cons,
        List.toFinset_cons, Finset.union_assoc]
      rw [← Finset.insert_eq, Finset.union_insert]

/-- Running insertAll accumulates exactly the inserted elements. -/
theorem GSet.insertAll_elements (l : List α) (s : GSet α) :
    (GSet.insertAll s l).elements = s.elements ∪ l.toFinset := by
  induction l generalizing s with
  | nil => simp [GSet.insertAll]
  | cons e l ih =>
      have h : GSet.insertAll s (e :: l)
             = GSet.insertAll ((GSet.insert s e).1) l := rfl
      rw [h, ih, GSet.insert_fst_elements]
      simp [Finset.insert_union, Finset.union_insert]

/-- C1: merge is commutative, associative, and idempotent: merging B into
A equals merging A into B; merge(merge(A,B),C) equals merge(A,merge(B,C));
merging A into itself leaves A unchanged; and merging the same state B a
second time adds nothing beyond merging it once. -/
theorem merge_comm_assoc_idem (A B C : GSet α) :
    GSet.eq (GSet.merge A B) (GSet.merge B A) ∧
    GSet.eq (GSet.merge (GSet.merge A B) C) (GSet.merge A (GSet.merge B C)) ∧
    GSet.eq (GSet.merge A A) A ∧
    GSet.eq (GSet.merge (GSet.merge A B) B) (GSet.merge A B) := by
  refine ⟨?_, ?_, ?_, ?_⟩ <;> simp only [GSet.eq, GSet.merge]
  · exact Finset.union_comm _ _
  · exact Finset.union_assoc _ _ _
  · exact Finset.union_self _
  · rw [Finset.union_assoc, Finset.union_self]

/-- C2: apply is idempotent (applying the same operation twice equals
applying it once) and commutative (two operations applied in either order
give equal states). -/
theorem apply_idem_comm (S : GSet α) (op op1 op2 : GSetOp α) :
    GSet.eq (GSet.apply (GSet.apply S op) op) (GSet.apply S op) ∧
    GSet.eq (GSet.apply (GSet.apply S op1) op2)
            (GSet.apply (GSet.apply S op2) op1) := by
  constructor
  · simp [GSet.eq, GSet.apply_elements]
  · simp [GSet.eq, GSet.apply_elements, Finset.Insert.comm]

/-- C10: a freshly constructed empty set is a two-sided identity for
merge: merging new() into A leaves A equal to itself, and merging A into
new() yields a set equal to A. -/
theorem merge_empty_identity (A : GSet α) :
    GSet.eq (GSet.merge A GSet.new) A ∧ GSet.eq (GSet.merge GSet.new A) A := by
  constructor <;> simp [GSet.eq, GSet.merge, GSet.new]

/-- C3: operation-based and state-based replication are equivalent: a
replica that starts empty and receives operations via apply in any order
and with arbitrary duplication ends equal to any other such replica that
received the same set of distinct operations; and applying any list of
operations to an empty replica equals merging the final states each
operation would have produced alone on an empty replica. -/
theorem apply_merge_equivalent :
    (∀ ops1 ops2 : List (GSetOp α), ops1.toFinset = ops2.toFinset →
        GSet.eq (GSet.applyList GSet.new ops1) (GSet.applyList GSet.new ops2)) ∧
    (∀ ops : List (GSetOp α),
        GSet.eq (GSet.applyList GSet.new ops)
          (GSet.mergeList GSet.new (ops.map GSetOp.solo))) := by
  constructor
  · intro ops1 ops2 h
    have hmem : ∀ op : GSetOp α, op ∈ ops1 ↔ op ∈ ops2 := by
      intro op
      rw [← List.mem_toFinset, ← List.mem_toFinset, h]
    simp only [GSet.eq, GSet.applyList_elements, GSet.new]
    congr 1
    ext x
    simp only [List.mem_toFinset, List.mem_map]
    constructor
    · rintro ⟨op, hop, hx⟩
      exact ⟨op, (hmem op).mp hop, hx⟩
    · rintro ⟨op, hop, hx⟩
      exact ⟨op, (hmem op).mpr hop, hx⟩
  · intro ops
    simp only [GSet.eq, GSet.applyList_elements, GSet.mergeList_solo_elements]

/-- Witness for C3: a duplicated, reordered delivery at concrete lists,
and agreement of the two replication strategies there. -/
theorem apply_merge_equivalent_witness :
    GSet.eq (GSet.applyList GSet.new [⟨1⟩, ⟨2⟩, ⟨1⟩])
            (GSet.applyList GSet.new ([⟨2⟩, ⟨1⟩] : List (GSetOp ℕ))) ∧
    GSet.eq (GSet.applyList GSet.new [⟨1⟩, ⟨2⟩, ⟨1⟩])
            (GSet.mergeList GSet.new
              (([⟨1⟩, ⟨2⟩, ⟨1⟩] : List (GSetOp ℕ)).map GSetOp.solo)) :=
  ⟨(apply_merge_equivalent (α := ℕ)).1 [⟨1⟩, ⟨2⟩, ⟨1⟩] [⟨2⟩, ⟨1⟩] (by decide),
   (apply_merge_equivalent (α := ℕ)).2 [⟨1⟩, ⟨2⟩, ⟨1⟩]⟩

/-- C4: merge computes set union (membership afterwards is membership in
either argument) and yields the least upper bound of the two states under
the subset order: an upper bound of both, and a subset of every common
upper bound. -/
theorem merge_union_lub (a b : GSet α) :
    (∀ e, GSet.contains (GSet.merge a b) e ↔
      (GSet.contains a e ∨ GSet.contains b e)) ∧
    GSet.is_subset a (GSet.merge a b) ∧
    GSet.is_subset b (GSet.merge a b) ∧
    (∀ c, GSet.is_subset a c → GSet.is_subset b c →
      GSet.is_subset (GSet.merge a b) c) := by
  refine ⟨?_, ?_, ?_, ?_⟩
  · intro e
    simp [GSet.contains, GSet.merge, Finset.mem_union]
  · simp only [GSet.is_subset, GSet.merge]
    exact Finset.subset_union_left
  · simp only [GSet.is_subset, GSet.merge]
    exact Finset.subset_union_right
  · intro c h1 h2
    simp only [GSet.is_subset, GSet.merge] at h1 h2 ⊢
    exact Finset.union_subset h1 h2

/-- Witness for C4 at concrete sets: the union of two singletons sits
below a common upper bound. -/
theorem merge_union_lub_witness :
    GSet.is_subset (GSet.merge (⟨{1}⟩ : GSet ℕ) ⟨{2}⟩) ⟨{1, 2, 3}⟩ :=
  (merge_union_lub ⟨{1}⟩ ⟨{2}⟩).2.2.2 ⟨{1, 2, 3}⟩ (by decide) (by decide)

/-- C5: insert adds the element; it returns an operation record carrying
exactly the element iff the element was absent; when the element was
already present it returns none and leaves len unchanged; and on a fresh
empty set, inserting the same element twice returns an operation the
first time, nothing the second time, and leaves len at 1. -/
theorem insert_spec (s : GSet α) (e : α) :
    GSet.contains (GSet.insert s e).1 e ∧
    ((GSet.insert s e).2 = some { element := e } ↔ ¬ GSet.contains s e) ∧
    (GSet.contains s e →
      (GSet.insert s e).2 = none ∧
      GSet.len (GSet.insert s e).1 = GSet.len s) ∧
    ((GSet.insert (GSet.new (α := α)) e).2 = some { element := e } ∧
      (GSet.insert (GSet.insert GSet.new e).1 e).2 = none ∧
      GSet.len (GSet.insert (GSet.insert GSet.new e).1 e).1 = 1) := by
  refine ⟨?_, ?_, ?_, ?_, ?_, ?_⟩
  · simp [GSet.contains, GSet.insert_fst_elements]
  · by_cases h : e ∈ s.elements <;> simp [GSet.insert, GSet.contains, h]
  · intro h
    simp only [GSet.contains] at h
    simp [GSet.insert, h]
  · simp [GSet.insert, GSet.new]
  · simp [GSet.insert, GSet.new]
  · simp [GSet.insert, GSet.new, GSet.len]

/-- Witness for C5: inserting an element already present returns none and
keeps len. -/
theorem insert_spec_witness :
    (GSet.insert (⟨{5}⟩ : GSet ℕ) 5).2 = none ∧
    GSet.len (GSet.insert (⟨{5}⟩ : GSet ℕ) 5).1 = GSet.len ⟨{5}⟩ :=
  (insert_spec (⟨{5}⟩ : GSet ℕ) 5).2.2.1 (by decide)

/-- C6: every mutating operation (insert, apply, merge) preserves
membership of every element already present and never decreases len. -/
theorem monotonic_growth (s t : GSet α) (e x : α) (op : GSetOp α) :
    (GSet.contains s x → GSet.contains (GSet.insert s e).1 x) ∧
    GSet.len s ≤ GSet.len (GSet.insert s e).1 ∧
    (GSet.contains s x → GSet.contains (GSet.apply s op) x) ∧
    GSet.len s ≤ GSet.len (GSet.apply s op) ∧
    (GSet.contains s x → GSet.contains (GSet.merge s t) x) ∧
    GSet.len s ≤ GSet.len (GSet.merge s t) := by
  refine ⟨?_, ?_, ?_, ?_, ?_, ?_⟩
  · intro h
    simp only [GSet.contains, GSet.insert_fst_elements] at h ⊢
    exact Finset.mem_insert_of_mem h
  · simp only [GSet.len, GSet.insert_fst_elements]
    exact Finset.card_le_card (Finset.subset_insert _ _)
  · intro h
    simp only [GSet.contains, GSet.apply_elements] at h ⊢
    exact Finset.mem_insert_of_mem h
  · simp only [GSet.len, GSet.apply_elements]
    exact Finset.card_le_card (Finset.subset_insert _ _)
  · intro h
    simp only [GSet.contains, GSet.merge] at h ⊢
    exact Finset.mem_union_left _ h
  · simp only [GSet.len, GSet.merge]
    exact Finset.card_le_card Finset.subset_union_left

/-- Witness for C6: an element present before a merge is still present
afterwards. -/
theorem monotonic_growth_witness :
    GSet.contains (GSet.merge (⟨{7}⟩ : GSet ℕ) ⟨{8}⟩) 7 :=
  (monotonic_growth (⟨{7}⟩ : GSet ℕ) ⟨{8}⟩ 9 7 ⟨9⟩).2.2.2.2.1 (by decide)

/-- Characterisation of the Equal outcome of partial_cmp. -/
theorem GSet.partial_cmp_eq_iff (a b : GSet α) :
    GSet.partial_cmp a b = some Ordering.eq ↔ a.elements = b.elements := by
  by_cases h1 : a.elements = b.elements
  · simp [GSet.partial_cmp, h1]
  · by_cases h2 : a.elements ⊆ b.elements
    · simp [GSet.partial_cmp, h1, h2]
    · by_cases h3 : b.elements ⊆ a.elements <;>
        simp [GSet.partial_cmp, h1, h2, h3]

/-- Characterisation of the Less outcome of partial_cmp: proper subset. -/
theorem GSet.partial_cmp_lt_iff (a b : GSet α) :
    GSet.partial_cmp a b = some Ordering.lt ↔
      (a.elements ⊆ b.elements ∧ a.elements ≠ b.elements) := by
  by_cases h1 : a.elements = b.elements
  · simp [GSet.partial_cmp, h1]
  · by_cases h2 : a.elements ⊆ b.elements
    · simp [GSet.partial_cmp, h1, h2]
    · by_cases h3 : b.elements ⊆ a.elements <;>
        simp [GSet.partial_cmp, h1, h2, h3]

/-- Characterisation of the Greater outcome of partial_cmp: proper
superset. -/
theorem GSet.partial_cmp_gt_iff (a b : GSet α) :
    GSet.partial_cmp a b = some Ordering.gt ↔
      (b.elements ⊆ a.elements ∧ a.elements ≠ b.elements) := by
  by_cases h1 : a.elements = b.elements
  · simp [GSet.partial_cmp, h1]
  · by_cases h2 : a.elements ⊆ b.elements
    · have h3 : ¬ b.elements ⊆ a.elements := fun h3 =>
        h1 (Finset.Subset.antisymm h2 h3)
      simp [GSet.partial_cmp, h1, h2, h3]
    · by_cases h3 : b.elements ⊆ a.elements <;>
        simp [GSet.partial_cmp, h1, h2, h3]

/-- Characterisation of the incomparable outcome of partial_cmp. -/
theorem GSet.partial_cmp_none_iff (a b : GSet α) :
    GSet.partial_cmp a b = none ↔
      (¬ a.elements ⊆ b.elements ∧ ¬ b.elements ⊆ a.elements) := by
  by_cases h1 : a.elements = b.elements
  · simp [GSet.partial_cmp, h1]
  · by_cases h2 : a.elements ⊆ b.elements
    · simp [GSet.partial_cmp, h1, h2]
    · by_cases h3 : b.elements ⊆ a.elements <;>
        simp [GSet.partial_cmp, h1, h2, h3]

/-- The derived le agrees with subset. -/
theorem GSet.le_iff_subset (a b : GSet α) :
    GSet.le a b = true ↔ a.elements ⊆ b.elements := by
  by_cases h1 : a.elements = b.elements
  · simp [GSet.le, GSet.partial_cmp, h1]
  · by_cases h2 : a.elements ⊆ b.elements
    · simp [GSet.le, GSet.partial_cmp, h1, h2]
    · by_cases h3 : b.elements ⊆ a.elements <;>
        simp [GSet.le, GSet.partial_cmp, h1, h2, h3]

/-- The derived lt agrees with proper subset. -/
theorem GSet.lt_iff_ssubset (a b : GSet α) :
    GSet.lt a b = true ↔
      (a.elements ⊆ b.elements ∧ a.elements ≠ b.elements) := by
  rw [← GSet.partial_cmp_lt_iff]
  by_cases h : GSet.partial_cmp a b = some Ordering.lt
  · simp [GSet.lt, h]
  · constructor
    · intro hb
      exfalso
      apply h
      revert hb
      unfold GSet.lt
      cases hc : GSet.partial_cmp a b with
      | none => simp
      | some o => cases o <;> simp_all
    · intro hb
      exact absurd hb h

/-- The derived gt agrees with proper superset. -/
theorem GSet.gt_iff_ssuperset (a b : GSet α) :
    GSet.gt a b = true ↔
      (b.elements ⊆ a.elements ∧ a.elements ≠ b.elements) := by
  rw [← GSet.partial_cmp_gt_iff]
  by_cases h : GSet.partial_cmp a b = some Ordering.gt
  · simp [GSet.gt, h]
  · constructor
    · intro hb
      exfalso
      apply h
      revert hb
      unfold GSet.gt
      cases hc : GSet.partial_cmp a b with
      | none => simp
      | some o => cases o <;> simp_all
    · intro hb
      exact absurd hb h

/-- C7: partial_cmp returns Equal exactly when the element sets are
identical, Less exactly when self is a proper subset (a non-proper subset
is reported as Equal), Greater exactly when self is a proper superset,
and none — no defined order, never a tie-break — exactly when neither set
is a subset of the other; in particular a subset always compares Less or
Equal. -/
theorem partial_cmp_spec (a b : GSet α) :
    (GSet.partial_cmp a b = some Ordering.eq ↔ GSet.eq a b) ∧
    (GSet.partial_cmp a b = some Ordering.lt ↔
      (GSet.is_subset a b ∧ ¬ GSet.eq a b)) ∧
    (GSet.partial_cmp a b = some Ordering.gt ↔
      (GSet.is_subset b a ∧ ¬ GSet.eq a b)) ∧
    (GSet.partial_cmp a b = none ↔
      (¬ GSet.is_subset a b ∧ ¬ GSet.is_subset b a)) ∧
    (GSet.is_subset a b →
      GSet.partial_cmp a b = some Ordering.lt ∨
      GSet.partial_cmp a b = some Ordering.eq) := by
  refine ⟨?_, ?_, ?_, ?_, ?_⟩
  · exact GSet.partial_cmp_eq_iff a b
  · rw [GSet.partial_cmp_lt_iff]
    simp [GSet.is_subset, GSet.eq]
  · rw [GSet.partial_cmp_gt_iff]
    simp [GSet.is_subset, GSet.eq]
  · rw [GSet.partial_cmp_none_iff]
    simp [GSet.is_subset]
  · intro h
    by_cases he : a.elements = b.elements
    · exact Or.inr ((GSet.partial_cmp_eq_iff a b).mpr he)
    · exact Or.inl ((GSet.partial_cmp_lt_iff a b).mpr ⟨h, he⟩)

/-- Witness for C7: two overlapping but incomparable sets report no
defined order, and a genuine subset compares Less or Equal. -/
theorem partial_cmp_spec_witness :
    GSet.partial_cmp (⟨{1, 2}⟩ : GSet ℕ) ⟨{2, 3}⟩ = none ∧
    (GSet.partial_cmp (⟨{1}⟩ : GSet ℕ) ⟨{1, 2}⟩ = some Ordering.lt ∨
      GSet.partial_cmp (⟨{1}⟩ : GSet ℕ) ⟨{1, 2}⟩ = some Ordering.eq) :=
  ⟨(partial_cmp_spec (⟨{1, 2}⟩ : GSet ℕ) ⟨{2, 3}⟩).2.2.2.1.mpr
      ⟨by decide, by decide⟩,
   (partial_cmp_spec (⟨{1}⟩ : GSet ℕ) ⟨{1, 2}⟩).2.2.2.2 (by decide)⟩

/-- C8: the derived order is consistent with the set relations: A le B
holds iff A is a subset of B; A equals B iff the element sets are equal;
and an empty A is strictly less than any non-empty B, which is in turn
strictly greater than A. -/
theorem order_consistency (A B : GSet α) :
    (GSet.le A B = true ↔ GSet.is_subset A B) ∧
    (GSet.eq A B ↔ A.elements = B.elements) ∧
    (GSet.is_empty A → ¬ GSet.is_empty B →
      (GSet.lt A B = true ∧ GSet.gt B A = true)) := by
  refine ⟨?_, Iff.rfl, ?_⟩
  · rw [GSet.le_iff_subset]
    exact Iff.rfl
  · intro hA hB
    simp only [GSet.is_empty] at hA hB
    constructor
    · rw [GSet.lt_iff_ssubset]
      refine ⟨?_, ?_⟩
      · rw [hA]
        exact Finset.empty_subset _
      · rw [hA]
        exact fun h => hB h.symm
    · rw [GSet.gt_iff_ssuperset]
      refine ⟨?_, ?_⟩
      · rw [hA]
        exact Finset.empty_subset _
      · rw [hA]
        exact fun h => hB h

/-- Witness for C8: the empty set is strictly below the singleton one,
and the singleton strictly above the empty set. -/
theorem order_consistency_witness :
    GSet.lt (GSet.new : GSet ℕ) ⟨{1}⟩ = true ∧
    GSet.gt (⟨{1}⟩ : GSet ℕ) GSet.new = true :=
  (order_consistency (GSet.new : GSet ℕ) ⟨{1}⟩).2.2 (by decide) (by decide)

/-- C9: inserting every element of a sequence one by one into a set
created by new yields a set containing each element of the sequence, with
len equal to the number of distinct elements of the sequence. -/
theorem insert_sequence (l : List α) :
    (∀ e, e ∈ l → GSet.contains (GSet.insertAll GSet.new l) e) ∧
    GSet.len (GSet.insertAll GSet.new l) = l.toFinset.card := by
  constructor
  · intro e he
    simp only [GSet.contains, GSet.insertAll_elements, GSet.new,
      Finset.empty_union]
    exact List.mem_toFinset.mpr he
  · simp only [GSet.len, GSet.insertAll_elements, GSet.new,
      Finset.empty_union]

/-- Witness for C9: a sequence with one duplicate leaves both elements in
the set, with len counting distinct elements only. -/
theorem insert_sequence_witness :
    GSet.contains (GSet.insertAll GSet.new [1, 2, 1]) 2 ∧
    GSet.len (GSet.insertAll (GSet.new : GSet ℕ) [1, 2, 1]) =
      ([1, 2, 1] : List ℕ).toFinset.card :=
  ⟨(insert_sequence [1, 2, 1]).1 2 (by decide),
    (insert_sequence [1, 2, 1]).2⟩
